import Mathlib

/-!
Verification of the voice/audio subsystem and service boundary of the
neurpaper-ai front-end, as a shallow embedding in Lean.

Sources embedded:
- `src/unnamed/part_000` (the gemini service module): `encodeAudio`,
  `decodeAudio`, `decodeAudioData`, `generateArxivPapers`;
- `src/components/VoiceAgent.tsx`: the `cleanup` function, the
  `onaudioprocess` capture callback, and the `onmessage` playback
  scheduling / interruption handler.

Numbers are modelled as `ℚ` (audio samples, clock times) and `Int`/`Nat`
(16-bit PCM values, bytes); JavaScript 16-bit truncation and wrap-around
are made explicit.
-/

namespace NeurPaper

/-! ## Byte to text codec (base64)

`encodeAudio` (part_000 lines 109-116) turns a `Uint8Array` into a
latin-1 string and calls `btoa`; `decodeAudio` (lines 118-126) calls
`atob` and reads char codes back.  We model the byte buffer as a
`List Nat` of values < 256 and btoa/atob as standard base64 over the
RFC 4648 alphabet (atob modelled on well-formed encodings, the domain
exercised by the round-trip). -/

/-- The standard base64 alphabet used by `btoa`/`atob`. -/
def b64Alphabet : List Char :=
  "ABCDEFGHIJKLMNOPQRSTUVWXYZabcdefghijklmnopqrstuvwxyz0123456789+/".toList

/-- Character for a 6-bit group. -/
def b64Char (n : Nat) : Char := b64Alphabet.getD n 'A'

/-- Index of a base64 character (inverse of `b64Char` on the alphabet). -/
def b64Index (c : Char) : Nat := b64Alphabet.indexOf c

/-- Base64 encoding of a byte list, exactly as `btoa` produces it:
three bytes become four alphabet characters, a trailing byte or byte
pair is padded with `=`. -/
def b64Encode : List Nat → List Char
  | [] => []
  | [a] => [b64Char (a / 4), b64Char ((a % 4) * 16), '=', '=']
  | [a, b] => [b64Char (a / 4), b64Char ((a % 4) * 16 + b / 16),
               b64Char ((b % 16) * 4), '=']
  | a :: b :: c :: rest =>
      b64Char (a / 4) :: b64Char ((a % 4) * 16 + b / 16) ::
      b64Char ((b % 16) * 4 + c / 64) :: b64Char (c % 64) :: b64Encode rest

/-- Base64 decoding as `atob` performs it on well-formed input: four
characters at a time, `=` padding cutting the final group to one or two
bytes. -/
def b64Decode : List Char → List Nat
  | c1 :: c2 :: c3 :: c4 :: rest =>
      let s1 := b64Index c1
      let s2 := b64Index c2
      if c3 = '=' then [s1 * 4 + s2 / 16]
      else
        let s3 := b64Index c3
        if c4 = '=' then [s1 * 4 + s2 / 16, (s2 % 16) * 16 + s3 / 4]
        else (s1 * 4 + s2 / 16) :: ((s2 % 16) * 16 + s3 / 4) ::
             ((s3 % 4) * 64 + b64Index c4) :: b64Decode rest
  | _ => []

/-- Model of `encodeAudio` (part_000 lines 109-116): bytes to base64 text. -/
def encodeAudio (bytes : List Nat) : List Char := b64Encode bytes

/-- Model of `decodeAudio` (part_000 lines 118-126): base64 text to bytes. -/
def decodeAudio (text : List Char) : List Nat := b64Decode text

lemma b64Index_b64Char : ∀ n < 64, b64Index (b64Char n) = n := by decide

lemma b64Char_ne_pad : ∀ n < 64, b64Char n ≠ '=' := by decide

/-- C7: byte-to-text codec round trip: for every byte sequence `b`
(every entry < 256), including the empty one, decoding the encoding
recovers `b` exactly. -/
theorem decodeAudio_encodeAudio : ∀ (b : List Nat), (∀ x ∈ b, x < 256) →
    decodeAudio (encodeAudio b) = b
  | [], _ => rfl
  | [a], h => by
      have ha : a < 256 := h a (by simp)
      show b64Decode (b64Encode [a]) = [a]
      rw [b64Encode, b64Decode]
      rw [if_pos rfl]
      rw [b64Index_b64Char _ (by omega), b64Index_b64Char _ (by omega)]
      simp only [List.cons.injEq, and_true]
      omega
  | [a, b], h => by
      have ha : a < 256 := h a (by simp)
      have hb : b < 256 := h b (by simp)
      show b64Decode (b64Encode [a, b]) = [a, b]
      rw [b64Encode, b64Decode]
      rw [if_neg (b64Char_ne_pad _ (by omega))]
      rw [if_pos rfl]
      rw [b64Index_b64Char _ (by omega), b64Index_b64Char _ (by omega),
          b64Index_b64Char _ (by omega)]
      simp only [List.cons.injEq, and_true]
      omega
  | a :: b :: c :: rest, h => by
      have ha : a < 256 := h a (by simp)
      have hb : b < 256 := h b (by simp)
      have hc : c < 256 := h c (by simp)
      have ih : b64Decode (b64Encode rest) = rest :=
        decodeAudio_encodeAudio rest (fun x hx => h x (by simp [hx]))
      show b64Decode (b64Encode (a :: b :: c :: rest)) = a :: b :: c :: rest
      rw [b64Encode, b64Decode]
      rw [if_neg (b64Char_ne_pad _ (by omega))]
      rw [if_neg (b64Char_ne_pad _ (by omega))]
      rw [b64Index_b64Char _ (by omega), b64Index_b64Char _ (by omega),
          b64Index_b64Char _ (by omega), b64Index_b64Char _ (by omega)]
      rw [ih]
      simp only [List.cons.injEq, and_true]
      refine ⟨by omega, by omega, by omega⟩

/-- C7 witness: the round trip evaluated on the concrete buffer
`[0, 255, 10, 77]`. -/
theorem decodeAudio_encodeAudio_witness :
    (∀ x ∈ [0, 255, 10, 77], x < 256) ∧
    decodeAudio (encodeAudio [0, 255, 10, 77]) = [0, 255, 10, 77] :=
  ⟨by decide, decodeAudio_encodeAudio [0, 255, 10, 77] (by decide)⟩

/-! ## PCM frame codec

Outbound: `onaudioprocess` (VoiceAgent.tsx lines 119-139) does
`int16[i] = inputData[i] * 32768` into an `Int16Array` and sends the
underlying bytes.  A JavaScript `Int16Array` store applies ToInt16:
truncation toward zero, then wrap-around modulo 2^16 into
[-32768, 32767].  Inbound: `decodeAudioData` (part_000 lines 128-145)
reinterprets the bytes as little-endian `Int16Array` (a `RangeError` if
the byte length is odd), computes `frameCount = length / numChannels`,
and fills each channel with `dataInt16[i * numChannels + ch] / 32768`.
The source performs no length validation of its own: the fractional
`frameCount` is converted down to an integer by `ctx.createBuffer`'s
argument conversion and out-of-range typed-array writes are ignored, so
the observable result truncates to `length / numChannels` (Nat
division) frames — except that `createBuffer` throws `NotSupportedError`
when the converted frame count is zero (empty input, or fewer than
`2 * numChannels` bytes). -/

/-- JavaScript number-to-integer truncation (toward zero). -/
def jsTrunc (q : ℚ) : Int := if 0 ≤ q then ⌊q⌋ else ⌈q⌉

/-- ToInt16: wrap an integer modulo 2^16 into [-32768, 32767], as an
`Int16Array` store does. -/
def toInt16 (t : Int) : Int :=
  if (t % 65536).toNat < 32768 then ((t % 65536).toNat : Int)
  else ((t % 65536).toNat : Int) - 65536

/-- One sample of the capture conversion: `int16[i] = inputData[i] * 32768`. -/
def sampleToInt16 (x : ℚ) : Int := toInt16 (jsTrunc (x * 32768))

/-- Little-endian byte pair of a 16-bit value (the `Uint8Array` view of
the `Int16Array` buffer). -/
def int16ToBytesLE (v : Int) : List Nat :=
  [(v % 65536).toNat % 256, (v % 65536).toNat / 256]

/-- The spec's `samplesToFrame`: the capture loop of `onaudioprocess`
(lines 124-129), float samples to 16-bit little-endian bytes. -/
def samplesToFrame (s : List ℚ) : List Nat :=
  s.flatMap (fun x => int16ToBytesLE (sampleToInt16 x))

/-- Reinterpret a byte list as little-endian signed 16-bit values
(`new Int16Array(data.buffer)`); a trailing odd byte cannot occur on the
even lengths where this is used. -/
def bytesToInt16List : List Nat → List Int
  | b0 :: b1 :: rest =>
      (if b0 + 256 * b1 < 32768 then ((b0 + 256 * b1 : Nat) : Int)
       else ((b0 + 256 * b1 : Nat) : Int) - 65536) :: bytesToInt16List rest
  | _ => []

/-- Model of `decodeAudioData` (part_000 lines 128-145), the spec's
`frameToSamples`.  An odd byte length faults at `Int16Array`
construction (`RangeError`); a frame count that truncates to zero
faults at `ctx.createBuffer` (`NotSupportedError`); otherwise each of
`numChannels` channels receives `length / numChannels` (floor)
de-interleaved samples divided by 32768. -/
def decodeAudioData (data : List Nat) (numChannels : Nat) :
    Except String (List (List ℚ)) :=
  if data.length % 2 ≠ 0 then Except.error "RangeError"
  else if (bytesToInt16List data).length / numChannels = 0 then
    Except.error "NotSupportedError"
  else
    Except.ok ((List.range numChannels).map (fun ch =>
      (List.range ((bytesToInt16List data).length / numChannels)).map (fun i =>
        (((bytesToInt16List data).getD (i * numChannels + ch) 0 : Int) : ℚ) / 32768)))

lemma toInt16_bounds (t : Int) : -32768 ≤ toInt16 t ∧ toInt16 t < 32768 := by
  unfold toInt16; omega

lemma toInt16_eq_self (v : Int) (h1 : -32768 ≤ v) (h2 : v < 32768) :
    toInt16 v = v := by
  unfold toInt16; omega

lemma sampleToInt16_bounds (x : ℚ) :
    -32768 ≤ sampleToInt16 x ∧ sampleToInt16 x < 32768 :=
  toInt16_bounds _

lemma bytesToInt16List_append_pair (v : Int) (rest : List Nat)
    (h1 : -32768 ≤ v) (h2 : v < 32768) :
    bytesToInt16List (int16ToBytesLE v ++ rest) = v :: bytesToInt16List rest := by
  show bytesToInt16List ((v % 65536).toNat % 256 :: (v % 65536).toNat / 256 :: rest) = _
  rw [bytesToInt16List]
  congr 1
  omega

lemma bytesToInt16List_samplesToFrame (s : List ℚ) :
    bytesToInt16List (samplesToFrame s) = s.map sampleToInt16 := by
  induction s with
  | nil => rfl
  | cons x xs ih =>
      show bytesToInt16List (int16ToBytesLE (sampleToInt16 x) ++ samplesToFrame xs) = _
      rw [bytesToInt16List_append_pair _ _ (sampleToInt16_bounds x).1
            (sampleToInt16_bounds x).2, ih, List.map_cons]

lemma samplesToFrame_length (s : List ℚ) :
    (samplesToFrame s).length = 2 * s.length := by
  induction s with
  | nil => rfl
  | cons x xs ih =>
      show (int16ToBytesLE (sampleToInt16 x) ++ samplesToFrame xs).length = _
      simp [int16ToBytesLE, ih]
      omega

lemma bytesToInt16List_length : ∀ (l : List Nat),
    (bytesToInt16List l).length = l.length / 2
  | [] => rfl
  | [_] => by simp [bytesToInt16List]
  | b0 :: b1 :: rest => by
      rw [bytesToInt16List]
      simp only [List.length_cons]
      rw [bytesToInt16List_length rest]
      omega

lemma jsTrunc_nonneg_case (q : ℚ) (h : 0 ≤ q) : jsTrunc q = ⌊q⌋ := if_pos h

lemma jsTrunc_neg_case (q : ℚ) (h : ¬ 0 ≤ q) : jsTrunc q = ⌈q⌉ := if_neg h

/-- For a sample in [-1, 1) the scaled truncation stays inside the
16-bit range, so the store does not wrap. -/
lemma sampleToInt16_no_wrap (x : ℚ) (h1 : -1 ≤ x) (h2 : x < 1) :
    sampleToInt16 x = jsTrunc (x * 32768) := by
  have hb : -32768 ≤ jsTrunc (x * 32768) ∧ jsTrunc (x * 32768) < 32768 := by
    unfold jsTrunc
    split
    · constructor
      · have : (0 : ℚ) ≤ x * 32768 := by assumption
        have := Int.le_floor.mpr (by push_cast; linarith : ((-32768 : Int) : ℚ) ≤ x * 32768)
        omega
      · have : x * 32768 < ((32768 : Int) : ℚ) := by push_cast; linarith
        have := Int.floor_lt.mpr this
        omega
    · constructor
      · have hx : -32768 ≤ x * 32768 := by linarith
        have h1' := Int.le_ceil (x * 32768)
        have : ((-32768 : Int) : ℚ) ≤ ((⌈x * 32768⌉ : Int) : ℚ) := by
          push_cast
          linarith
        exact_mod_cast this
      · have : x * 32768 ≤ ((0 : Int) : ℚ) := by push_cast; linarith
        have := Int.ceil_le.mpr this
        omega
  exact toInt16_eq_self _ hb.1 hb.2

/-- Quantization error bound: the decoded value of an encoded sample in
[-1, 1) is within 1/32768 of the original. -/
lemma sample_quantization (x : ℚ) (h1 : -1 ≤ x) (h2 : x < 1) :
    |((sampleToInt16 x : Int) : ℚ) / 32768 - x| ≤ 1 / 32768 := by
  rw [sampleToInt16_no_wrap x h1 h2]
  have key : |((jsTrunc (x * 32768) : Int) : ℚ) - x * 32768| ≤ 1 := by
    unfold jsTrunc
    split
    · rw [abs_le]
      constructor
      · have := Int.lt_floor_add_one (x * 32768)
        push_cast
        linarith
      · have := Int.floor_le (x * 32768)
        linarith
    · rw [abs_le]
      constructor
      · have := Int.le_ceil (x * 32768)
        linarith
      · have := Int.ceil_lt_add_one (x * 32768)
        push_cast
        linarith
  have heq : ((jsTrunc (x * 32768) : Int) : ℚ) / 32768 - x
      = (((jsTrunc (x * 32768) : Int) : ℚ) - x * 32768) / 32768 := by ring
  rw [heq, abs_div]
  rw [abs_of_pos (by norm_num : (0 : ℚ) < 32768)]
  apply div_le_div_of_nonneg_right key (by norm_num) |>.trans
  · norm_num

lemma getD_map_range {α : Type} (n j : Nat) (h : j < n) (f : Nat → α) (d : α) :
    ((List.range n).map f).getD j d = f j := by
  rw [List.getD_eq_getElem?_getD, List.getElem?_map, List.getElem?_range h]
  rfl

lemma getD_map_of_lt {α β : Type} (f : α → β) (l : List α) (k : Nat)
    (h : k < l.length) (d : β) (d' : α) :
    (l.map f).getD k d = f (l.getD k d') := by
  rw [List.getD_eq_getElem?_getD, List.getElem?_map,
      List.getElem?_eq_getElem h]
  rw [List.getD_eq_getElem?_getD, List.getElem?_eq_getElem h]
  rfl

lemma getD_mem {α : Type} (l : List α) (k : Nat) (d : α) (h : k < l.length) :
    l.getD k d ∈ l := by
  rw [List.getD_eq_getElem?_getD, List.getElem?_eq_getElem h]
  exact List.getElem_mem h

lemma decodeAudioData_samplesToFrame (s : List ℚ) (c : Nat)
    (hfc : s.length / c ≠ 0) :
    decodeAudioData (samplesToFrame s) c =
      Except.ok ((List.range c).map (fun ch =>
        (List.range (s.length / c)).map (fun i =>
          (((s.map sampleToInt16).getD (i * c + ch) 0 : Int) : ℚ) / 32768))) := by
  unfold decodeAudioData
  rw [if_neg (by rw [samplesToFrame_length]; omega)]
  rw [if_neg (by rw [bytesToInt16List_samplesToFrame, List.length_map]; exact hfc)]
  simp only [bytesToInt16List_samplesToFrame, List.length_map]

/-- C6 amended: for nonempty sample sequences with values in [-1, 1)
(the claim's closed right endpoint 1 wraps, see the counterexample; the
empty sequence makes the zero-length buffer creation throw
`NotSupportedError`) and a channel count dividing the sample count,
decoding the encoded frame recovers every sample within 1/32768. -/
theorem pcm_roundtrip (s : List ℚ) (c : Nat) (hne : s ≠ [])
    (hs : ∀ x ∈ s, -1 ≤ x ∧ x < 1)
    (hc : 0 < c) (hdvd : c ∣ s.length) :
    ∃ chans, decodeAudioData (samplesToFrame s) c = Except.ok chans ∧
      chans.length = c ∧
      ∀ j, j < c → ∀ i, i < s.length / c →
        |(chans.getD j []).getD i 0 - s.getD (i * c + j) 0| ≤ 1 / 32768 := by
  have hlen : 0 < s.length := List.length_pos.mpr hne
  have hcle : c ≤ s.length := Nat.le_of_dvd hlen hdvd
  have hfc : s.length / c ≠ 0 := by
    have h1 : 1 ≤ s.length / c := (Nat.one_le_div_iff hc).mpr hcle
    omega
  refine ⟨_, decodeAudioData_samplesToFrame s c hfc, by simp, ?_⟩
  intro j hj i hi
  rw [getD_map_range c j hj _ []]
  rw [getD_map_range (s.length / c) i hi _ 0]
  have hk : i * c + j < s.length := by
    have h2 : (i + 1) * c ≤ (s.length / c) * c := Nat.mul_le_mul_right c hi
    have h3 : (s.length / c) * c = s.length := Nat.div_mul_cancel hdvd
    rw [Nat.succ_mul] at h2
    omega
  rw [getD_map_of_lt sampleToInt16 s _ hk 0 0]
  have hmem : s.getD (i * c + j) 0 ∈ s := getD_mem s _ 0 hk
  exact sample_quantization _ (hs _ hmem).1 (hs _ hmem).2

/-- C6 witness: the amended round trip at the concrete input `[0]`, one
channel. -/
theorem pcm_roundtrip_witness :
    ([(0 : ℚ)] ≠ []) ∧
    (∀ x ∈ [(0 : ℚ)], -1 ≤ x ∧ x < 1) ∧ 0 < 1 ∧ 1 ∣ [(0 : ℚ)].length ∧
    (∃ chans, decodeAudioData (samplesToFrame [(0 : ℚ)]) 1 = Except.ok chans ∧
      chans.length = 1 ∧
      ∀ j, j < 1 → ∀ i, i < [(0 : ℚ)].length / 1 →
        |(chans.getD j []).getD i 0 - [(0 : ℚ)].getD (i * 1 + j) 0| ≤ 1 / 32768) :=
  ⟨by simp, by norm_num, by norm_num, by norm_num,
   pcm_roundtrip [0] 1 (by simp) (by norm_num) (by norm_num) (by norm_num)⟩

lemma sampleToInt16_one : sampleToInt16 (1 : ℚ) = -32768 := by
  unfold sampleToInt16
  have h : jsTrunc ((1 : ℚ) * 32768) = 32768 := by
    unfold jsTrunc
    rw [if_pos (by norm_num)]
    rw [show ((1 : ℚ) * 32768) = ((32768 : Int) : ℚ) by norm_num,
        Int.floor_intCast]
  rw [h]
  decide

lemma samplesToFrame_one : samplesToFrame [(1 : ℚ)] = [0, 128] := by
  simp only [samplesToFrame, List.flatMap_cons, List.flatMap_nil,
    List.append_nil, sampleToInt16_one]
  decide

lemma decodeAudioData_one :
    decodeAudioData (samplesToFrame [(1 : ℚ)]) 1 = Except.ok [[-1]] := by
  rw [samplesToFrame_one]
  unfold decodeAudioData
  rw [if_neg (by decide), if_neg (by decide)]
  have hb : bytesToInt16List [0, 128] = [-32768] := by decide
  simp only [hb]
  norm_num [List.range_succ]

/-- C6 counterexample: the claim fails as stated at the sample sequence
`[1.0]` with one channel: 1.0 is in the claimed domain [-1, 1], but the
decoded sample is -1.0, which is 2 away from the original, far more than
1/32768. -/
theorem pcm_roundtrip_fails_at_one :
    ((-1 : ℚ) ≤ 1 ∧ (1 : ℚ) ≤ 1) ∧ 1 ∣ [(1 : ℚ)].length ∧
    decodeAudioData (samplesToFrame [(1 : ℚ)]) 1 = Except.ok [[-1]] ∧
    ¬ |((-1 : ℚ)) - 1| ≤ 1 / 32768 :=
  ⟨by norm_num, by simp, decodeAudioData_one, by norm_num⟩

/-- C9: in the capture conversion an input sample of exactly 1.0, inside
the spec's [-1, 1] domain, scales to 32768 and wraps modulo 2^16 to
-32768: full-scale positive input encodes as the most negative 16-bit
value (not 32767), and decodes back to -1.0. -/
theorem full_scale_input_wraps :
    sampleToInt16 1 = -32768 ∧ sampleToInt16 1 ≠ 32767 ∧
    decodeAudioData (samplesToFrame [(1 : ℚ)]) 1 = Except.ok [[-1]] ∧
    ((-1 : ℚ) ≤ 1 ∧ (1 : ℚ) ≤ 1) :=
  ⟨sampleToInt16_one, by rw [sampleToInt16_one]; decide,
   decodeAudioData_one, by norm_num⟩

/-- C8 counterexample: a 6-byte buffer (three 16-bit samples) with
channel count 2 has a length that is not a multiple of 2 * 2, yet
`decodeAudioData` raises no error (and no `InvalidFrameLength`): it
silently truncates to one frame per channel, dropping the third sample. -/
theorem decodeAudioData_no_invalid_frame_length :
    ¬ (2 * 2 ∣ ([0, 0, 0, 0, 0, 0] : List Nat).length) ∧
    decodeAudioData [0, 0, 0, 0, 0, 0] 2 = Except.ok [[0], [0]] := by
  constructor
  · decide
  · unfold decodeAudioData
    rw [if_neg (by decide), if_neg (by decide)]
    have hb : bytesToInt16List [0, 0, 0, 0, 0, 0] = [0, 0, 0] := by decide
    simp only [hb]
    norm_num [List.range_succ]

/-- C8 amended: no `InvalidFrameLength` error exists: an odd byte length
fails at `Int16Array` construction with `RangeError`; an even byte
length with fewer than `2 * channelCount` bytes (frame count truncating
to zero) fails at buffer creation with `NotSupportedError`; and an even
byte length of at least `2 * channelCount` that is not a multiple of
`2 * channelCount` raises no error and silently truncates each channel
to `length / 2 / channelCount` frames. -/
theorem decodeAudioData_length_behavior (data : List Nat) (c : Nat) :
    (data.length % 2 = 1 → decodeAudioData data c = Except.error "RangeError") ∧
    (data.length % 2 = 0 → data.length / 2 / c = 0 →
      decodeAudioData data c = Except.error "NotSupportedError") ∧
    (data.length % 2 = 0 → data.length / 2 / c ≠ 0 →
      ∃ chans, decodeAudioData data c = Except.ok chans ∧
        chans.length = c ∧ ∀ l ∈ chans, l.length = data.length / 2 / c) := by
  refine ⟨fun h => ?_, fun h h0 => ?_, fun h h0 => ?_⟩
  · unfold decodeAudioData
    rw [if_pos (by omega)]
  · unfold decodeAudioData
    rw [if_neg (by omega), if_pos (by rw [bytesToInt16List_length]; exact h0)]
  · unfold decodeAudioData
    rw [if_neg (by omega), if_neg (by rw [bytesToInt16List_length]; exact h0)]
    refine ⟨_, rfl, by simp, ?_⟩
    intro l hl
    simp only [List.mem_map, List.mem_range] at hl
    obtain ⟨ch, _, rfl⟩ := hl
    simp [bytesToInt16List_length]

/-- C8 amended witness: an odd-length buffer faults with `RangeError`, a
2-byte buffer with channel count 2 faults with `NotSupportedError`, and
a 6-byte buffer with channel count 2 succeeds, truncated to one frame
per channel. -/
theorem decodeAudioData_length_behavior_witness :
    decodeAudioData [1, 2, 3] 1 = Except.error "RangeError" ∧
    decodeAudioData [0, 0] 2 = Except.error "NotSupportedError" ∧
    (∃ chans, decodeAudioData [0, 0, 0, 0, 0, 0] 2 = Except.ok chans ∧
      chans.length = 2 ∧
      ∀ l ∈ chans, l.length = ([0, 0, 0, 0, 0, 0] : List Nat).length / 2 / 2) :=
  ⟨(decodeAudioData_length_behavior [1, 2, 3] 1).1 (by decide),
   (decodeAudioData_length_behavior [0, 0] 2).2.1 (by decide) (by decide),
   (decodeAudioData_length_behavior [0, 0, 0, 0, 0, 0] 2).2.2 (by decide) (by decide)⟩

/-! ## Playback scheduler

The audio branch of `onmessage` (VoiceAgent.tsx lines 144-171) runs, per
inbound frame: `nextStartTime = max(nextStartTime, ctx.currentTime)`;
`source.start(nextStartTime)`; `nextStartTime += audioBuffer.duration`.
We model a run of enqueues as a fold over `(deviceClock, duration)`
pairs, producing the `(startAt, endAt)` interval of every scheduled
segment and the final cursor. -/

/-- Scheduling a sequence of inbound frames: each entry of the input is
the device clock reading and the decoded frame duration at its enqueue;
the result is the list of `(startAt, startAt + duration)` intervals plus
the final cursor value. -/
def scheduleAll (cursor : ℚ) : List (ℚ × ℚ) → List (ℚ × ℚ) × ℚ
  | [] => ([], cursor)
  | (clock, dur) :: rest =>
      let startAt := max cursor clock
      let r := scheduleAll (startAt + dur) rest
      ((startAt, startAt + dur) :: r.1, r.2)

lemma scheduleAll_head_start (cursor : ℚ) (frames : List (ℚ × ℚ)) :
    ∀ seg ∈ (scheduleAll cursor frames).1.head?, cursor ≤ seg.1 := by
  cases frames with
  | nil => simp [scheduleAll]
  | cons f rest =>
      obtain ⟨clock, dur⟩ := f
      simp only [scheduleAll, Option.mem_def, List.head?_cons, Option.some.injEq]
      rintro seg rfl
      exact le_max_left _ _

/-- C1: playback scheduling is gapless and non-overlapping: every
segment starts at `max(cursor, deviceClock)` and advances the cursor by
its duration, so in any run of enqueues the start of each segment is at
least the end of the previous one; concretely, two 0.1 s frames enqueued
with the cursor and device clock at `T` are scheduled at `T` and
`T + 0.1` and leave the cursor at `T + 0.2`. -/
theorem playback_no_overlap :
    (∀ (cursor : ℚ) (frames : List (ℚ × ℚ)),
      List.Chain' (fun a b => a.2 ≤ b.1) (scheduleAll cursor frames).1) ∧
    (∀ T : ℚ, scheduleAll T [(T, 1/10), (T, 1/10)] =
      ([(T, T + 1/10), (T + 1/10, T + 2/10)], T + 2/10)) := by
  constructor
  · intro cursor frames
    induction frames generalizing cursor with
    | nil => simp [scheduleAll]
    | cons f rest ih =>
        obtain ⟨clock, dur⟩ := f
        rw [scheduleAll]
        rw [List.chain'_cons']
        exact ⟨scheduleAll_head_start _ rest, ih _⟩
  · intro T
    have h2 : max (T + 1/10) T = T + 1/10 := max_eq_left (by linarith)
    simp only [scheduleAll, max_self, h2]
    have h3 : T + 1/10 + 1/10 = T + 2/10 := by ring
    rw [h3]

/-! ## Interruption handler

The interruption branch of `onmessage` (VoiceAgent.tsx lines 173-177):
`sourcesRef.current.forEach(s => s.stop()); sourcesRef.current.clear();
nextStartTimeRef.current = 0;`.  The current device clock is not
consulted. -/

/-- Playback scheduler state: the cursor and the active-segments set
(segments named by identifiers in creation order). -/
structure SchedulerState where
  nextStartTime : ℚ
  sources : List Nat

/-- Model of the interruption branch: stop every active segment (the
returned list), clear the set, set the cursor to 0.  The source writes
the constant 0, not the device clock's current time. -/
def interruptOnMessage (st : SchedulerState) : SchedulerState × List Nat :=
  (⟨0, []⟩, st.sources)

/-- C2: the interruption handler stops every active segment and clears
the set (also a no-op on the set when it is empty), but it resets the
cursor to the constant 0, not to the device clock's current time: at
device time 7/10 with cursor 1/2 and one active segment, the cursor
afterwards is 0 rather than 7/10. -/
theorem interrupt_resets_cursor_to_zero :
    (∀ st : SchedulerState, (interruptOnMessage st).1.sources = [] ∧
      (interruptOnMessage st).2 = st.sources ∧
      (interruptOnMessage st).1.nextStartTime = 0) ∧
    (interruptOnMessage ⟨1/2, [7]⟩).1.nextStartTime = 0 ∧
    (interruptOnMessage ⟨1/2, [7]⟩).1.sources = [] ∧
    (interruptOnMessage ⟨1/2, [7]⟩).2 = [7] ∧
    (0 : ℚ) ≠ 7/10 :=
  ⟨fun _ => ⟨rfl, rfl, rfl⟩, rfl, rfl, rfl, by norm_num⟩

/-! ## Session teardown

`cleanup` (VoiceAgent.tsx lines 30-56) null-checks and releases, in
order: the script processor (capture graph disconnect), the media-stream
source node, the microphone stream tracks, the transport session, the
output audio context, the input audio context; each ref is nulled after
its release, and `setIsConnected(false)` runs last.  But line 190 stores
the connect *Promise* into `sessionRef` (`sessionRef.current =
sessionPromise`), and a `Promise` has no `close` method: whenever
`sessionRef` is non-null, `sessionRef.current.close()` throws a
`TypeError` that aborts the rest of the function — `sessionRef` is never
nulled, neither `AudioContext` is closed, and `setIsConnected(false)`
never runs.  The steps before the session close (processor and source
disconnect, track stop, and their ref nulling) do complete. -/

/-- One successfully performed teardown action, in the order `cleanup`
performs them.  There is no session-close action: the close call throws
before performing anything. -/
inductive CleanupAction where
  | disconnectProcessor
  | disconnectSource
  | stopTracks
  | closeOutputCtx
  | closeInputCtx
deriving DecidableEq

/-- The nullable refs held by the voice agent (true = currently held),
plus the `isConnected` UI flag. -/
structure AgentRefs where
  processor : Bool
  source : Bool
  stream : Bool
  session : Bool
  outputCtx : Bool
  inputCtx : Bool
  connected : Bool
deriving DecidableEq

/-- Outcome of one `cleanup` call: the state it leaves behind, the
release actions it performed, and whether it threw (the `TypeError`
from calling `close()` on the stored connect Promise). -/
structure CleanupResult where
  state : AgentRefs
  actions : List CleanupAction
  threw : Bool
deriving DecidableEq

/-- Model of `cleanup` (lines 30-56).  When `sessionRef` is held it
holds the connect Promise, so the session-close statement throws
`TypeError`: the processor, source and stream steps before it have
completed (and their refs are nulled), but `sessionRef` stays set, both
audio contexts stay open, and `isConnected` is untouched.  When
`sessionRef` is null the function runs to completion. -/
def cleanup (st : AgentRefs) : CleanupResult :=
  if st.session then
    { state := { st with processor := false, source := false, stream := false },
      actions :=
        (if st.processor then [CleanupAction.disconnectProcessor] else []) ++
        (if st.source then [CleanupAction.disconnectSource] else []) ++
        (if st.stream then [CleanupAction.stopTracks] else []),
      threw := true }
  else
    { state := ⟨false, false, false, false, false, false, false⟩,
      actions :=
        (if st.processor then [CleanupAction.disconnectProcessor] else []) ++
        (if st.source then [CleanupAction.disconnectSource] else []) ++
        (if st.stream then [CleanupAction.stopTracks] else []) ++
        (if st.outputCtx then [CleanupAction.closeOutputCtx] else []) ++
        (if st.inputCtx then [CleanupAction.closeInputCtx] else []),
      threw := false }

/-- The microphone is released when the stream ref is gone. -/
def micReleased (st : AgentRefs) : Prop := st.stream = false

/-- The state of the component after activation completed: every ref
held (in particular `sessionRef` holding the connect Promise). -/
def fullActivation : AgentRefs := ⟨true, true, true, true, true, true, true⟩

/-- C3: the claimed teardown contract fails in the code: the microphone
is always released (tracks are stopped before the faulting step), but
`sessionRef` holds the connect Promise, which has no `close()`, so
whenever a session was opened `cleanup` throws `TypeError` at the
session-close step — performing only the capture disconnects and the
track stop, leaving `sessionRef` set and both audio graphs open — and a
second call throws again instead of being an error-free no-op. -/
theorem cleanup_throws_on_session_close :
    (∀ st : AgentRefs, micReleased (cleanup st).state ∧
      ((cleanup st).threw = true ↔ st.session = true)) ∧
    (cleanup fullActivation).threw = true ∧
    (cleanup fullActivation).actions =
      [CleanupAction.disconnectProcessor, CleanupAction.disconnectSource,
       CleanupAction.stopTracks] ∧
    (cleanup fullActivation).state.session = true ∧
    (cleanup fullActivation).state.outputCtx = true ∧
    (cleanup fullActivation).state.inputCtx = true ∧
    micReleased (cleanup fullActivation).state ∧
    (cleanup (cleanup fullActivation).state).threw = true := by
  refine ⟨fun st => ?_, rfl, rfl, rfl, rfl, rfl, rfl, rfl⟩
  unfold cleanup micReleased
  split <;> simp_all

/-! ## Capture pipeline

`onaudioprocess` (VoiceAgent.tsx lines 119-139): if `isMuted`, return;
otherwise convert the 4096-sample block to 16-bit PCM, base64-encode it,
and queue a `sendRealtimeInput` with MIME tag `audio/pcm;rate=16000` on
the resolved session.  The `isMuted` the callback reads is the value
captured by the effect closure when the session was wired: the effect
re-runs only on `isOpen`/`contextSummary` changes (line 202), so the
mute button (line 238, `setIsMuted(!isMuted)`) re-renders the component
but never changes the flag inside the already-installed callback —
toggling mute tears nothing down, and it also does not gate whether
captured blocks are sent. -/

/-- The text frame handed to the transport's send. -/
structure TransportFrame where
  mimeType : String
  data : List Char
deriving DecidableEq

/-- Model of one `onaudioprocess` invocation, given the `isMuted` value
the callback closure reads: `none` when the block is skipped, otherwise
the single frame handed to send. -/
def onaudioprocess (muted : Bool) (block : List ℚ) : Option TransportFrame :=
  if muted then none
  else some ⟨"audio/pcm;rate=16000", encodeAudio (samplesToFrame block)⟩

/-- The sends produced by a wired session over a run of capture blocks:
every tick reads the same `capturedMuted`, the `isMuted` value the
effect closure captured at wiring time. -/
def sessionTicks (capturedMuted : Bool) (blocks : List (List ℚ)) :
    List TransportFrame :=
  blocks.filterMap (onaudioprocess capturedMuted)

/-- The voice-agent component state: the current `isMuted` React state
(what the mute button toggles), the `isMuted` value frozen inside the
installed `onaudioprocess` closure, and the session resources. -/
structure VoiceUI where
  isMuted : Bool
  capturedMuted : Bool
  refs : AgentRefs

/-- Model of the mute button click handler (line 238): flips only the
`isMuted` state — the installed callback's captured flag and every
session resource are untouched, because the owning effect does not
depend on `isMuted`. -/
def toggleMute (st : VoiceUI) : VoiceUI :=
  { st with isMuted := !st.isMuted }

/-- A user-visible event during a wired session: a mute-button click or
one capture callback invocation delivering a block. -/
inductive CaptureEvent where
  | toggle
  | tick (block : List ℚ)

/-- The block of a tick event, if any. -/
def tickBlock : CaptureEvent → Option (List ℚ)
  | CaptureEvent.toggle => none
  | CaptureEvent.tick b => some b

/-- A run of the wired session: toggles update the React state only;
each tick consults the closure's captured flag, never the current
state.  Returns the final component state and the frames sent. -/
def uiRun : VoiceUI → List CaptureEvent → VoiceUI × List TransportFrame
  | st, [] => (st, [])
  | st, CaptureEvent.toggle :: evs => uiRun (toggleMute st) evs
  | st, CaptureEvent.tick block :: evs =>
      ((uiRun st evs).1,
        (onaudioprocess st.capturedMuted block).toList ++ (uiRun st evs).2)

/-- C5 counterexample: toggling mute does not gate sending: a session
wired while unmuted keeps sending after the mute button is clicked —
after one toggle the component state is muted, yet the next capture tick
still hands its frame to send, because the callback reads the stale
captured flag. -/
theorem mute_toggle_does_not_gate_sends :
    (uiRun ⟨false, false, fullActivation⟩ [CaptureEvent.toggle]).1.isMuted = true ∧
    (uiRun ⟨false, false, fullActivation⟩
        [CaptureEvent.toggle, CaptureEvent.tick []]).2 =
      [⟨"audio/pcm;rate=16000", encodeAudio (samplesToFrame [])⟩] :=
  ⟨rfl, rfl⟩

/-- C5 amended: each capture invocation checks the `isMuted` value
captured when the session was wired: if that flag is true the block is
skipped, otherwise exactly one send occurs tagged `audio/pcm;rate=16000`
(three blocks under an unmuted wiring give exactly three such sends);
toggling mute never touches the captured flag or the session resources —
so it never tears down the session, but it also does not gate whether
captured blocks are sent: the sends of any run are exactly those
determined by the wiring-time flag and the blocks, toggles invisible. -/
theorem capture_tick_behavior :
    (∀ block, onaudioprocess true block = none) ∧
    (∀ block, onaudioprocess false block =
      some ⟨"audio/pcm;rate=16000", encodeAudio (samplesToFrame block)⟩) ∧
    (∀ b1 b2 b3, (sessionTicks false [b1, b2, b3]).length = 3 ∧
      ∀ f ∈ sessionTicks false [b1, b2, b3],
        f.mimeType = "audio/pcm;rate=16000") ∧
    (∀ init evs, (uiRun init evs).1.capturedMuted = init.capturedMuted ∧
      (uiRun init evs).1.refs = init.refs ∧
      (uiRun init evs).2 =
        sessionTicks init.capturedMuted (evs.filterMap tickBlock)) := by
  refine ⟨fun _ => rfl, fun _ => rfl, fun b1 b2 b3 => ⟨rfl, ?_⟩, fun init evs => ?_⟩
  · intro f hf
    simp only [sessionTicks, onaudioprocess, List.filterMap_cons,
      List.filterMap_nil, if_false, Bool.false_eq_true, List.mem_cons,
      List.not_mem_nil, or_false] at hf
    rcases hf with rfl | rfl | rfl <;> rfl
  · induction evs generalizing init with
    | nil => exact ⟨rfl, rfl, rfl⟩
    | cons ev evs ih =>
        cases ev with
        | toggle => exact ih (toggleMute init)
        | tick b =>
            have h := ih init
            refine ⟨h.1, h.2.1, ?_⟩
            show (onaudioprocess init.capturedMuted b).toList ++ (uiRun init evs).2
              = sessionTicks init.capturedMuted
                  (List.filterMap tickBlock (CaptureEvent.tick b :: evs))
            rw [h.2.2]
            cases hm : onaudioprocess init.capturedMuted b with
            | none => simp [sessionTicks, List.filterMap_cons, tickBlock, hm]
            | some f => simp [sessionTicks, List.filterMap_cons, tickBlock, hm]

/-- C5 amended witness: the three-block scenario evaluated at empty
blocks. -/
theorem capture_tick_behavior_witness :
    (sessionTicks false [[], [], []]).length = 3 :=
  (capture_tick_behavior.2.2.1 [] [] []).1

/-! ## Teardown cancellation (event-loop model)

Each unmuted `onaudioprocess` invocation queues a continuation on
`sessionPromise` (`sessionPromise.then(session => session.sendRealtimeInput(...))`,
lines 131-138).  `cleanup` disconnects the processor and stops the
microphone tracks before its faulting session-close step, so no further
capture callbacks run and the microphone is released — but it does not
cancel already-queued promise continuations, which still run later on
the event loop and hand their block to send, and (because it throws
before the output-context close, see the `cleanup` model) it does not
stop pending playback.  We model the loop as a fold over events: a
capture callback, the teardown, and the resumption of one queued send
continuation; the microphone and playback facts are stated against the
`cleanup` model. -/

/-- An event on the single-threaded loop: a capture callback delivering
block `b`, the `cleanup` call, or one queued send continuation running. -/
inductive VAEvent where
  | capture (b : Nat)
  | cleanupEv
  | resolveSend

/-- Loop state: whether the processor is still connected, whether
teardown has run, the queued send continuations (block ids, FIFO), and
the sends that reached the transport, each tagged with whether teardown
had already run when it fired. -/
structure LoopState where
  processorOn : Bool
  cleaned : Bool
  pending : List Nat
  sent : List (Nat × Bool)
deriving DecidableEq

/-- One event-loop step.  A capture callback only runs while the
processor is connected; teardown flips the flags but leaves `pending`
untouched (promise continuations are not cancelled); a send continuation
pops its block and performs the send. -/
def vaStep (st : LoopState) : VAEvent → LoopState
  | .capture b => if st.processorOn then { st with pending := st.pending ++ [b] } else st
  | .cleanupEv => { st with processorOn := false, cleaned := true }
  | .resolveSend =>
      match st.pending with
      | [] => st
      | b :: rest => { st with pending := rest, sent := st.sent ++ [(b, st.cleaned)] }

/-- Initial loop state after activation: processor connected, nothing
queued. -/
def vaInit : LoopState := ⟨true, false, [], []⟩

/-- A whole event-loop run. -/
def vaRun (evs : List VAEvent) : LoopState := evs.foldl vaStep vaInit

/-- C4 counterexample: a block captured just before teardown is handed
to the transport's send after cleanup has run: in the trace
capture-cleanup-resume, the single send fires with the teardown flag
set, refuting the claim that no send occurs after cleanup. -/
theorem send_fires_after_cleanup :
    (vaRun [VAEvent.capture 0, VAEvent.cleanupEv, VAEvent.resolveSend]).sent
      = [(0, true)] ∧
    ¬ (∀ e ∈ (vaRun [VAEvent.capture 0, VAEvent.cleanupEv,
        VAEvent.resolveSend]).sent, e.2 = false) := by
  have hsent : (vaRun [VAEvent.capture 0, VAEvent.cleanupEv,
      VAEvent.resolveSend]).sent = [(0, true)] := rfl
  refine ⟨hsent, fun h => ?_⟩
  have h2 := h (0, true) (by rw [hsent]; exact List.mem_singleton_self _)
  simp at h2

lemma vaStep_preserves_teardown (evs : List VAEvent) (st : LoopState)
    (P : List Nat) (S : List (Nat × Bool))
    (hcl : st.cleaned = true) (hoff : st.processorOn = false)
    (hp : ∀ p ∈ st.pending, p ∈ P) (hs : ∀ e ∈ st.sent, e ∈ S ∨ e.1 ∈ P) :
    (evs.foldl vaStep st).cleaned = true ∧
    (evs.foldl vaStep st).processorOn = false ∧
    (∀ p ∈ (evs.foldl vaStep st).pending, p ∈ P) ∧
    (∀ e ∈ (evs.foldl vaStep st).sent, e ∈ S ∨ e.1 ∈ P) := by
  induction evs generalizing st with
  | nil => exact ⟨hcl, hoff, hp, hs⟩
  | cons ev rest ih =>
      rw [List.foldl_cons]
      cases ev with
      | capture b =>
          have : vaStep st (VAEvent.capture b) = st := by
            simp [vaStep, hoff]
          rw [this]
          exact ih st hcl hoff hp hs
      | cleanupEv =>
          exact ih _ rfl rfl hp hs
      | resolveSend =>
          cases hpend : st.pending with
          | nil =>
              have : vaStep st VAEvent.resolveSend = st := by
                simp [vaStep, hpend]
              rw [this]
              exact ih st hcl hoff hp hs
          | cons b rest' =>
              have hstep : vaStep st VAEvent.resolveSend =
                  { st with pending := rest', sent := st.sent ++ [(b, st.cleaned)] } := by
                simp [vaStep, hpend]
              rw [hstep]
              refine ih _ hcl hoff ?_ ?_
              · intro p hp'
                exact hp p (by rw [hpend]; exact List.mem_cons_of_mem _ hp')
              · intro e he
                rcases List.mem_append.mp he with h | h
                · exact hs e h
                · simp only [List.mem_singleton] at h
                  subst h
                  exact Or.inr (hp b (by rw [hpend]; exact List.mem_cons_self _ _))

/-- C4 amended: once teardown begins the processor stays disconnected —
no block captured after teardown is ever queued or sent, and every send
that fires afterwards carries a block whose continuation was already
pending at teardown (captured before it) — and the microphone is always
released; but teardown does not cancel the continuations already queued
on the session promise (the unamended no-send-after-cleanup claim fails
on them, see the counterexample), and whenever a session promise is
held, `cleanup` throws at the session-close step before reaching the
output-context close, so pending playback segments are not stopped. -/
theorem teardown_cancellation :
    (∀ evs1 evs2 : List VAEvent,
      (vaRun (evs1 ++ VAEvent.cleanupEv :: evs2)).processorOn = false ∧
      (vaRun (evs1 ++ VAEvent.cleanupEv :: evs2)).cleaned = true ∧
      (∀ p ∈ (vaRun (evs1 ++ VAEvent.cleanupEv :: evs2)).pending,
        p ∈ (vaRun (evs1 ++ [VAEvent.cleanupEv])).pending) ∧
      (∀ e ∈ (vaRun (evs1 ++ VAEvent.cleanupEv :: evs2)).sent,
        e ∈ (vaRun (evs1 ++ [VAEvent.cleanupEv])).sent ∨
        e.1 ∈ (vaRun (evs1 ++ [VAEvent.cleanupEv])).pending)) ∧
    (∀ st : AgentRefs, micReleased (cleanup st).state) ∧
    (∀ st : AgentRefs, st.session = true → st.outputCtx = true →
      (cleanup st).threw = true ∧ (cleanup st).state.outputCtx = true) := by
  refine ⟨fun evs1 evs2 => ?_, fun st => ?_, fun st hs ho => ?_⟩
  · have hsplit : vaRun (evs1 ++ VAEvent.cleanupEv :: evs2) =
        evs2.foldl vaStep (vaRun (evs1 ++ [VAEvent.cleanupEv])) := by
      unfold vaRun
      rw [show evs1 ++ VAEvent.cleanupEv :: evs2
            = (evs1 ++ [VAEvent.cleanupEv]) ++ evs2 by simp]
      rw [List.foldl_append]
    have hc : (vaRun (evs1 ++ [VAEvent.cleanupEv])).cleaned = true := by
      unfold vaRun
      rw [List.foldl_append]
      rfl
    have ho : (vaRun (evs1 ++ [VAEvent.cleanupEv])).processorOn = false := by
      unfold vaRun
      rw [List.foldl_append]
      rfl
    rw [hsplit]
    have h := vaStep_preserves_teardown evs2 (vaRun (evs1 ++ [VAEvent.cleanupEv]))
      (vaRun (evs1 ++ [VAEvent.cleanupEv])).pending
      (vaRun (evs1 ++ [VAEvent.cleanupEv])).sent
      hc ho (fun p hp => hp) (fun e he => Or.inl he)
    exact ⟨h.2.1, h.1, h.2.2.1, h.2.2.2⟩
  · unfold cleanup micReleased
    split <;> rfl
  · unfold cleanup
    rw [if_pos hs]
    exact ⟨rfl, ho⟩

/-- C4 amended witness: the amended guarantee evaluated on the
counterexample trace and on the fully-activated teardown state. -/
theorem teardown_cancellation_witness :
    (vaRun ([VAEvent.capture 0] ++ VAEvent.cleanupEv :: [VAEvent.resolveSend])).processorOn
      = false ∧
    ((cleanup fullActivation).threw = true ∧
      (cleanup fullActivation).state.outputCtx = true) :=
  ⟨(teardown_cancellation.1 [VAEvent.capture 0] [VAEvent.resolveSend]).1,
   teardown_cancellation.2.2 fullActivation rfl rfl⟩

/-! ## Paper-fetch boundary

`generateArxivPapers` (part_000 lines 7-54) awaits the generative-AI
service, defaults a missing `response.text` to `"[]"`, strips markdown
code fences, extracts the text between the first `[` and the last `]`
when both occur, and `JSON.parse`s the result, casting it to `Paper[]`
without any shape validation; every thrown error is caught and turned
into the empty array.  The service call and `JSON.parse` are platform
primitives, so they enter the model as parameters: the service result is
an `Except` of an optional text, and the parser is any
`String → Except Unit Json` (instantiated faithfully at the strings a
concrete run queries). -/

/-- A JSON value (numbers restricted to integers, which suffices for the
inputs exercised here). -/
inductive Json where
  | null
  | bool (b : Bool)
  | num (n : Int)
  | str (s : String)
  | arr (elems : List Json)
  | obj (fields : List (String × Json))

/-- Global replace of a non-empty pattern, scanning left to right and
resuming after each match, as `String.prototype.replace` with a global
regex does.  Fuel is the string length, enough because every step
consumes at least one character. -/
def replaceAllAux (fuel : Nat) (pat rep : List Char) (l : List Char) : List Char :=
  match fuel, l with
  | 0, l => l
  | _, [] => []
  | fuel + 1, c :: rest =>
      if (!pat.isEmpty) && pat.isPrefixOf (c :: rest) then
        rep ++ replaceAllAux fuel pat rep (List.drop pat.length (c :: rest))
      else c :: replaceAllAux fuel pat rep rest

/-- JS `text.replace(pattern-global, replacement)` on char lists. -/
def replaceAll (pat rep l : List Char) : List Char :=
  replaceAllAux l.length pat rep l

/-- JS `String.prototype.indexOf` for a single character: first index or -1. -/
def jsIndexOf (l : List Char) (c : Char) : Int :=
  match List.indexOf? c l with
  | some i => i
  | none => -1

/-- JS `String.prototype.lastIndexOf` for a single character. -/
def jsLastIndexOf (l : List Char) (c : Char) : Int :=
  match List.indexOf? c l.reverse with
  | some i => ((l.length - 1 - i : Nat) : Int)
  | none => -1

/-- JS `String.prototype.substring`: clamps both arguments to the string
bounds and swaps them when start exceeds end. -/
def jsSubstring (l : List Char) (s e : Int) : List Char :=
  let s' := (max 0 (min s (l.length : Int))).toNat
  let e' := (max 0 (min e (l.length : Int))).toNat
  (l.take (max s' e')).drop (min s' e')

/-- The response-text processing of `generateArxivPapers` (part_000
lines 32-47): strip code fences, extract between the first `[` and the
last `]` when both occur, `JSON.parse` the result; a parse throw is
caught into the empty array. -/
def cleanedText (text : String) : List Char :=
  replaceAll "```".toList [] (replaceAll "```json".toList [] text.toList)

def parsePapersText (text : String)
    (jsonParse : String → Except Unit Json) : Json :=
  if jsIndexOf (cleanedText text) '[' ≠ -1 ∧
      jsLastIndexOf (cleanedText text) ']' ≠ -1 then
    match jsonParse (String.mk (jsSubstring (cleanedText text)
        (jsIndexOf (cleanedText text) '[')
        (jsLastIndexOf (cleanedText text) ']' + 1))) with
    | .ok j => j
    | .error _ => Json.arr []
  else
    match jsonParse (String.mk (cleanedText text)) with
    | .ok j => j
    | .error _ => Json.arr []

/-- Model of `generateArxivPapers` (part_000 lines 7-54).  `svc` is the
awaited service call: `Except.error` for a thrown request, otherwise the
optional `response.text` (defaulted to `"[]"` when absent); `jsonParse`
stands for `JSON.parse`, with `Except.error` for a parse throw.  The
returned JSON value is what the source casts to `Paper[]`; both catch
paths yield the empty array. -/
def generateArxivPapers (topic : String) (count : Nat)
    (svc : Except Unit (Option String))
    (jsonParse : String → Except Unit Json) : Json :=
  match svc with
  | .error _ => Json.arr []
  | .ok t? => parsePapersText (t?.getD "[]") jsonParse

/-- Whether a JSON value is a string. -/
def isJsonStr : Json → Bool
  | .str _ => true
  | _ => false

/-- Whether a JSON value is an array of strings. -/
def isJsonStrArr : Json → Bool
  | .arr xs => xs.all isJsonStr
  | _ => false

/-- First field with the given key, as JS property access on a parsed
object. -/
def getField (fields : List (String × Json)) (k : String) : Option Json :=
  (fields.find? (fun f => f.1 == k)).map (fun f => f.2)

/-- Whether a JSON value has the shape of a paper record
`{title, authors[], year, summary, highlights[], link}`. -/
def isPaperRecord : Json → Bool
  | .obj fields =>
      (match getField fields "title" with | some j => isJsonStr j | none => false) &&
      (match getField fields "authors" with | some j => isJsonStrArr j | none => false) &&
      (match getField fields "year" with | some j => isJsonStr j | none => false) &&
      (match getField fields "summary" with | some j => isJsonStr j | none => false) &&
      (match getField fields "highlights" with | some j => isJsonStrArr j | none => false) &&
      (match getField fields "link" with | some j => isJsonStr j | none => false)
  | _ => false

/-- Whether a JSON value is a list of paper records. -/
def isPaperList : Json → Bool
  | .arr xs => xs.all isPaperRecord
  | _ => false

/-- JSON.parse restricted to the single string the counterexample run
queries: `JSON.parse "7"` succeeds with the number 7 (any other input is
irrelevant to the run and modelled as a throw). -/
def jsonParseNum7 : String → Except Unit Json :=
  fun t => if t = "7" then Except.ok (Json.num 7) else Except.error ()

/-- C10 counterexample: when the service responds with the text `"7"`
(no brackets, valid JSON), the function returns the JSON number 7 — not
a list of paper records and not the empty list — because the parse
result is cast to `Paper[]` without validation. -/
theorem generateArxivPapers_returns_non_list :
    generateArxivPapers "quantum computing" 3 (Except.ok (some "7")) jsonParseNum7
      = Json.num 7 ∧
    isPaperList (Json.num 7) = false := by
  constructor
  · rfl
  · rfl

/-- C10 amended: the fetch never throws past the boundary and returns
the empty list whenever the service call throws or the parse of the
(extracted) text throws; on parse success it returns the parsed JSON
value as-is, without validating that it is a list of paper records. -/
theorem generateArxivPapers_boundary (topic : String) (count : Nat)
    (svc : Except Unit (Option String)) (parse : String → Except Unit Json) :
    (svc = Except.error () → generateArxivPapers topic count svc parse = Json.arr []) ∧
    ((∀ s, parse s = Except.error ()) →
      generateArxivPapers topic count svc parse = Json.arr []) ∧
    (generateArxivPapers topic count svc parse = Json.arr [] ∨
      ∃ s, parse s = Except.ok (generateArxivPapers topic count svc parse)) := by
  have hbody : ∀ text : String,
      ((∀ s, parse s = Except.error ()) → parsePapersText text parse = Json.arr []) ∧
      (parsePapersText text parse = Json.arr [] ∨
        ∃ s, parse s = Except.ok (parsePapersText text parse)) := by
    intro text
    unfold parsePapersText
    constructor
    · intro hall
      split
      · rw [hall]
      · rw [hall]
    · split
      · cases hp : parse (String.mk (jsSubstring _ _ _)) with
        | ok j => exact Or.inr ⟨_, hp⟩
        | error e => exact Or.inl rfl
      · cases hp : parse (String.mk _) with
        | ok j => exact Or.inr ⟨_, hp⟩
        | error e => exact Or.inl rfl
  refine ⟨fun h => by rw [h]; rfl, fun hall => ?_, ?_⟩
  · cases svc with
    | error e => rfl
    | ok t? => exact (hbody (t?.getD "[]")).1 hall
  · cases svc with
    | error e => exact Or.inl rfl
    | ok t? => exact (hbody (t?.getD "[]")).2

/-- C10 amended witness: a thrown service call yields the empty list. -/
theorem generateArxivPapers_boundary_witness :
    generateArxivPapers "t" 0 (Except.error ()) jsonParseNum7 = Json.arr [] :=
  (generateArxivPapers_boundary "t" 0 (Except.error ()) jsonParseNum7).1 rfl

end NeurPaper
